import Mathlib

/-!
Shallow embedding of the reconciliation core of the defi-compare repository
(src/scripts/generate_comparison.js and its variant src/unnamed/part_003).

JavaScript values are modelled by the inductive type `Js`; JS numbers are
modelled by rationals (IEEE-754 rounding and NaN propagation are abstracted:
coercing a non-number to a number yields 0 here).  Property access on
`null`/`undefined` throws, which is modelled by `Except String`.
-/

/-- A JavaScript value (JSON plus `undefined`).  Objects are association
lists in insertion order, as JS object literals are. -/
inductive Js where
  | null : Js
  | undefined : Js
  | bool : Bool → Js
  | num : ℚ → Js
  | str : String → Js
  | arr : List Js → Js
  | obj : List (String × Js) → Js

/-- JS truthiness: `null`, `undefined`, `false`, `0` and the empty string are
falsy; arrays and objects are always truthy.  (`NaN` is not modelled.) -/
def Js.truthy : Js → Bool
  | .null => false
  | .undefined => false
  | .bool b => b
  | .num q => decide (q ≠ 0)
  | .str s => decide (s ≠ "")
  | .arr _ => true
  | .obj _ => true

/-- JS string coercion used for object keys.  Exotic keys (arrays, objects)
are abstracted; no protocol or chain name in this repository is one. -/
def Js.key : Js → String
  | .null => "null"
  | .undefined => "undefined"
  | .bool b => toString b
  | .num q => toString q
  | .str s => s
  | .arr _ => "[array]"
  | .obj _ => "[object Object]"

/-- JS numeric coercion, abstracting NaN to 0 for non-numbers. -/
def Js.toNum : Js → ℚ
  | .num q => q
  | _ => 0

/-- First binding of a key in an association list of JS object fields. -/
def fieldGet : List (String × Js) → String → Js
  | [], _ => .undefined
  | (k2, v) :: rest, k => if k2 = k then v else fieldGet rest k

/-- Property read that never throws: reading a property of a non-object
primitive yields `undefined`, as in JS. -/
def Js.jget : Js → String → Js
  | .obj fs, k => fieldGet fs k
  | _, _ => .undefined

/-- Property read with JS semantics for the throwing case: reading a
property of `null` or `undefined` raises a TypeError. -/
def Js.getE : Js → String → Except String Js
  | .null, k => .error ("TypeError: cannot read properties of null: " ++ k)
  | .undefined, k => .error ("TypeError: cannot read properties of undefined: " ++ k)
  | v, k => .ok (v.jget k)

/-- Optional chaining `v?.k`: yields `undefined` instead of throwing when the
base is `null`/`undefined`. -/
def Js.optGet : Js → String → Js
  | .null, _ => .undefined
  | .undefined, _ => .undefined
  | v, k => v.jget k

/-- The JS whitespace characters relevant here (space, tab, line feed,
carriage return). -/
def jsWhite (c : Char) : Bool :=
  c = ' ' || c = '\t' || c = '\n' || c = '\r'

/-- JS `String.prototype.trim`: strip whitespace from both ends. -/
def jsTrim (s : String) : String :=
  String.mk (((s.data.dropWhile jsWhite).reverse.dropWhile jsWhite).reverse)

/-- Calling `.trim()` on a value: succeeds only on strings; on anything else
JS raises a TypeError (`undefined.trim()`, `(5).trim()`, ...). -/
def Js.trimE : Js → Except String String
  | .str s => .ok (jsTrim s)
  | _ => .error "TypeError: trim is not a function"

/-- One canonical asset entry as pushed onto a protocol's `assets` list.
`amount`, `price`, `type` and `flags` are copied through as raw JS values,
exactly as the source does; `value` is the computed number.  (The spec calls
the `type` field `role`.) -/
structure Asset where
  symbol : String
  amount : Js
  price : Js
  value : ℚ
  type : Js
  flags : Js

/-- One protocol bucket: `{ name, id, value, assets }`. -/
structure Protocol where
  name : Js
  id : Js
  value : ℚ
  assets : List Asset

/-- A normalized chain snapshot: `{ protocols, totalValue }`.  The
`protocols` JS object is modelled as an association list in insertion
order, keyed by the JS string coercion of the bucket name. -/
structure Snapshot where
  protocols : List (String × Protocol)
  totalValue : ℚ

/-- The empty snapshot `{protocols: {}, totalValue: 0}`. -/
def emptySnapshot : Snapshot := { protocols := [], totalValue := 0 }

/-- One bucket contribution: a single pass of the source's per-record (or
per-position) mutations, gathered as a value.  `key` is the object key the
bucket is stored under, `name`/`id` are used only when the bucket is first
created. -/
structure Contribution where
  key : String
  name : Js
  id : Js
  val : ℚ
  assets : List Asset

/-- Lookup of a protocol bucket by key (JS object property read). -/
def plookup (k : String) : List (String × Protocol) → Option Protocol
  | [] => none
  | (k2, p) :: rest => if k2 = k then some p else plookup k rest

/-- The keys of the protocol map, in insertion order. -/
def pkeys (ps : List (String × Protocol)) : List String := ps.map Prod.fst

/-- Apply one contribution to the protocol map: create the bucket if the key
is absent (appended, as JS object insertion does), otherwise add the value
and concatenate the assets onto the existing bucket, keeping its `name` and
`id`. -/
def bucketAdd : List (String × Protocol) → Contribution → List (String × Protocol)
  | [], c => [(c.key, { name := c.name, id := c.id, value := c.val, assets := c.assets })]
  | (k, p) :: rest, c =>
    if k = c.key then
      (k, { name := p.name, id := p.id, value := p.value + c.val,
            assets := p.assets ++ c.assets }) :: rest
    else (k, p) :: bucketAdd rest c

/-- Apply one contribution to a snapshot: bucket update plus
`totalValue += val`. -/
def snapAdd (s : Snapshot) (c : Contribution) : Snapshot :=
  { protocols := bucketAdd s.protocols c, totalValue := s.totalValue + c.val }

/-- Sum of all protocol bucket values in a snapshot. -/
def protoSum (s : Snapshot) : ℚ := (s.protocols.map (fun kp => kp.2.value)).sum

/-- Sum of the `value` fields of a list of assets. -/
def assetValueSum (assets : List Asset) : ℚ := (assets.map Asset.value).sum

/-- The `x || y` fallback value (`y` when `x` is falsy). -/
def jsOr (x y : Js) : Js := if x.truthy then x else y

/-- The numeric value of `x || 0` (`item.stats.net_usd_value || 0`,
`attrs.value || 0`). -/
def orZero (x : Js) : ℚ := if x.truthy then x.toNum else 0

/-- One entry of a `supply_token_list`
(src/scripts/generate_comparison.js:87-94): `token.symbol.trim()` (throws
when `symbol` is not a string), value `amount * price`, type `supply`. -/
def procSupplyToken (token : Js) : Except String Asset :=
  match token.getE "symbol" with
  | .error e => .error e
  | .ok symJs =>
    match symJs.trimE with
    | .error e => .error e
    | .ok symS =>
      .ok { symbol := symS, amount := token.jget "amount", price := token.jget "price",
            value := (token.jget "amount").toNum * (token.jget "price").toNum,
            type := .str "supply", flags := .undefined }

/-- One entry of a `borrow_token_list`
(src/scripts/generate_comparison.js:98-105): value
`(amount * price) * -1`, type `borrow`. -/
def procBorrowToken (token : Js) : Except String Asset :=
  match token.getE "symbol" with
  | .error e => .error e
  | .ok symJs =>
    match symJs.trimE with
    | .error e => .error e
    | .ok symS =>
      .ok { symbol := symS, amount := token.jget "amount", price := token.jget "price",
            value := (token.jget "amount").toNum * (token.jget "price").toNum * (-1),
            type := .str "borrow", flags := .undefined }

/-- One entry of a `reward_token_list`
(src/scripts/generate_comparison.js:109-120): value `amount * price`,
type `reward`. -/
def procRewardToken (token : Js) : Except String Asset :=
  match token.getE "symbol" with
  | .error e => .error e
  | .ok symJs =>
    match symJs.trimE with
    | .error e => .error e
    | .ok symS =>
      .ok { symbol := symS, amount := token.jget "amount", price := token.jget "price",
            value := (token.jget "amount").toNum * (token.jget "price").toNum,
            type := .str "reward", flags := .undefined }

/-- `forEach` over a token list: each entry processed in order by `f`; the
first throw aborts (the JS exception propagates out of the whole
normalizer, so the partially mutated state is never observed). -/
def procTokens (f : Js → Except String Asset) : List Js → Except String (List Asset)
  | [] => .ok []
  | t :: ts =>
    match f t with
    | .error e => .error e
    | .ok a =>
      match procTokens f ts with
      | .error e => .error e
      | .ok rest => .ok (a :: rest)

/-- The guarded token-list block
`if (item.detail && item.detail.K) { item.detail.K.forEach(...) }`:
skipped when the list is falsy; calling `forEach` on a truthy non-array
throws. -/
def procTokenList (detail : Js) (k : String) (f : Js → Except String Asset) :
    Except String (List Asset) :=
  match detail.jget k with
  | .arr tokens => procTokens f tokens
  | v => if v.truthy then .error "TypeError: forEach is not a function" else .ok []

/-- One portfolio item (src/scripts/generate_comparison.js:80-123): reads
`item.stats.net_usd_value || 0` (throwing when `item` or `item.stats` is
nullish), then extracts supply, borrow and reward assets from
`item.detail`.  Returns the item's net value and its assets in push
order. -/
def procItem (item : Js) : Except String (ℚ × List Asset) :=
  match item.getE "stats" with
  | .error e => .error e
  | .ok stats =>
    match stats.getE "net_usd_value" with
    | .error e => .error e
    | .ok nuv =>
      let val := orZero nuv
      let detail := item.jget "detail"
      if detail.truthy then
        match procTokenList detail "supply_token_list" procSupplyToken with
        | .error e => .error e
        | .ok supplies =>
          match procTokenList detail "borrow_token_list" procBorrowToken with
          | .error e => .error e
          | .ok borrows =>
            match procTokenList detail "reward_token_list" procRewardToken with
            | .error e => .error e
            | .ok rewards => .ok (val, supplies ++ borrows ++ rewards)
      else
        .ok (val, [])

/-- `portfolio_item_list.forEach` over the items of one protocol record. -/
def procItems : List Js → Except String (List (ℚ × List Asset))
  | [] => .ok []
  | i :: is =>
    match procItem i with
    | .error e => .error e
    | .ok r =>
      match procItems is with
      | .error e => .error e
      | .ok rest => .ok (r :: rest)

/-- One provider-A protocol record
(src/scripts/generate_comparison.js:66-124) gathered as a bucket
contribution: key `proto.name || 'Unknown'`, id `proto.id`, value the sum
of the items' net values, assets the concatenation of the items' assets.
Throws when the record is nullish or `portfolio_item_list` is not an
array. -/
def protoContrib (proto : Js) : Except String Contribution :=
  match proto.getE "name" with
  | .error e => .error e
  | .ok nameJs =>
    let protoNameJs := jsOr nameJs (.str "Unknown")
    match proto.jget "portfolio_item_list" with
    | .arr items =>
      match procItems items with
      | .error e => .error e
      | .ok rs =>
        .ok { key := protoNameJs.key, name := protoNameJs, id := proto.jget "id",
              val := (rs.map Prod.fst).sum, assets := (rs.map Prod.snd).flatten }
    | _ => .error "TypeError: forEach is not a function"

/-- The `chainData.forEach(proto => ...)` loop, accumulating the snapshot. -/
def debankLoop : Snapshot → List Js → Except String Snapshot
  | snap, [] => .ok snap
  | snap, p :: ps =>
    match protoContrib p with
    | .error e => .error e
    | .ok c => debankLoop (snapAdd snap c) ps

/-- `normalizeDeBank` (src/scripts/generate_comparison.js:60-127):
non-array input yields the empty snapshot; otherwise every protocol record
is folded into the protocol map. -/
def normalizeDeBank (chainData : Js) : Except String Snapshot :=
  match chainData with
  | .arr protos => debankLoop emptySnapshot protos
  | _ => .ok emptySnapshot

/-- Generic association-list lookup with string keys (a JS object read). -/
def alistGet {α : Type} (k : String) : List (String × α) → Option α
  | [] => none
  | (k2, v) :: rest => if k2 = k then some v else alistGet k rest

/-- The protocol-alias table `PROTOCOL_NAME_MAP` of
src/scripts/generate_comparison.js:28-43 (canonical chain key → provider-B
name → provider-A name). -/
def PROTOCOL_NAME_MAP : List (String × List (String × String)) :=
  [("binance-smart-chain", [("Helio", "Lista DAO")]),
   ("ethereum",
     [("Morpho Blue", "Morpho"), ("Tokemak", "AUTO Finance"), ("Spool", "Yelay"),
      ("Euler v2", "Euler"), ("Compound V2", "Compound"), ("MakerDAO", "Maker")]),
   ("optimism", [("Velodrome V2", "Velodrome")])]

/-- The extended alias table of the variant script src/unnamed/part_003:28-45:
same as `PROTOCOL_NAME_MAP` plus `ParaSwap` on ethereum and both Velodrome
directions on optimism. -/
def PROTOCOL_NAME_MAP_V : List (String × List (String × String)) :=
  [("binance-smart-chain", [("Helio", "Lista DAO")]),
   ("ethereum",
     [("Morpho Blue", "Morpho"), ("Tokemak", "AUTO Finance"), ("Spool", "Yelay"),
      ("Euler v2", "Euler"), ("Compound V2", "Compound"), ("MakerDAO", "Maker"),
      ("ParaSwap", "Velora")]),
   ("optimism", [("Velodrome", "Velodrome V2"), ("Velodrome V2", "Velodrome")])]

/-- Protocol alias resolution, the mapping step of `normalizeZerion`
(src/scripts/generate_comparison.js:151-154, src/unnamed/part_003:187-190):
`if (chainId && MAP[chainId] && MAP[chainId][protoName]) protoName =
MAP[chainId][protoName]`.  A single chain-scoped lookup; the name passes
through unchanged when the chain or the name has no (truthy) entry. -/
def resolveProtoName (pmap : List (String × List (String × String)))
    (chainId : Js) (protoName : Js) : Js :=
  if chainId.truthy then
    match alistGet chainId.key pmap with
    | some tbl =>
      match alistGet protoName.key tbl with
      | some mapped => if (Js.str mapped).truthy then .str mapped else protoName
      | none => protoName
    | none => protoName
  else protoName

/-- The position-type coalescing step of `normalizeZerion`
(src/scripts/generate_comparison.js:169-173): `locked` and `staked` become
`supply`; everything else passes through unchanged. -/
def normalizePositionType (t : Js) : Js :=
  match t with
  | .str s => if s = "locked" then .str "supply" else if s = "staked" then .str "supply" else t
  | _ => t

/-- One provider-B position (src/scripts/generate_comparison.js:142-193)
gathered as an optional bucket contribution.  `none` when the position is
skipped (falsy attribute bag, or falsy/absent protocol — a plain wallet
balance).  Throws when the position itself is nullish or when a truthy
non-string fungible symbol meets `.trim()`. -/
def posEntry (pmap : List (String × List (String × String))) (chainId : Js)
    (pos : Js) : Except String (Option Contribution) :=
  match pos.getE "attributes" with
  | .error e => .error e
  | .ok attrs =>
    if attrs.truthy then
      if (attrs.jget "protocol").truthy then
        let protoName := resolveProtoName pmap chainId (attrs.jget "protocol")
        let val := orZero (attrs.jget "value")
        let ty := normalizePositionType (attrs.jget "position_type")
        let symJs := jsOr ((attrs.jget "fungible_info").optGet "symbol") (.str "?")
        match symJs.trimE with
        | .error e => .error e
        | .ok symS =>
          let amount := jsOr ((attrs.jget "quantity").optGet "float") (.num 0)
          let price := jsOr (attrs.jget "price") (.num 0)
          let flags := (attrs.jget "fungible_info").optGet "flags"
          .ok (some (Contribution.mk protoName.key protoName protoName val
            [Asset.mk symS amount price val ty flags]))
      else .ok none
    else .ok none

/-- One step of the `items.forEach(pos => ...)` loop. -/
def posStep (pmap : List (String × List (String × String))) (chainId : Js)
    (snap : Snapshot) (pos : Js) : Except String Snapshot :=
  match posEntry pmap chainId pos with
  | .error e => .error e
  | .ok none => .ok snap
  | .ok (some c) => .ok (snapAdd snap c)

/-- The items selection of `normalizeZerion`
(src/scripts/generate_comparison.js:134-140): accept a `{data: [...]}`
wrapper or a bare array, else an empty list.  Reading `.data` throws on a
nullish input. -/
def zerionItems (chainDataRaw : Js) : Except String (List Js) :=
  match chainDataRaw.getE "data" with
  | .error e => .error e
  | .ok d =>
    match d with
    | .arr l => .ok l
    | _ =>
      match chainDataRaw with
      | .arr l => .ok l
      | _ => .ok []

/-- The position loop of `normalizeZerion`. -/
def zerionLoop (pmap : List (String × List (String × String))) (chainId : Js) :
    Snapshot → List Js → Except String Snapshot
  | snap, [] => .ok snap
  | snap, pos :: ps =>
    match posStep pmap chainId snap pos with
    | .error e => .error e
    | .ok snap2 => zerionLoop pmap chainId snap2 ps

/-- `normalizeZerion` (src/scripts/generate_comparison.js:130-196).  The
module-level alias table consulted on line 152 is passed explicitly as
`pmap` (`PROTOCOL_NAME_MAP` at the call site of generate_comparison.js,
`PROTOCOL_NAME_MAP_V` for part_003). -/
def normalizeZerion (pmap : List (String × List (String × String)))
    (chainDataRaw : Js) (chainId : Js) : Except String Snapshot :=
  match zerionItems chainDataRaw with
  | .error e => .error e
  | .ok items => zerionLoop pmap chainId emptySnapshot items

/-- The chain-identifier table `CHAIN_MAP`
(src/scripts/generate_comparison.js:9-21): provider-A slug → canonical
(provider-B) chain key, in `Object.keys` iteration order. -/
def CHAIN_MAP : List (String × String) :=
  [("eth", "ethereum"), ("bsc", "binance-smart-chain"), ("matic", "polygon"),
   ("ftm", "fantom"), ("avax", "avalanche"), ("op", "optimism"),
   ("arb", "arbitrum"), ("base", "base"), ("linea", "linea"),
   ("era", "zksync-era"), ("scrl", "scroll")]

/-- One `{ debank, zerion }` pair of the output dataset. -/
structure ComparisonRecord where
  debank : Snapshot
  zerion : Snapshot

/-- The raw-input surface the assembler reads: the address directories
found under the provider-A data directory, and for each (address, chain
slug) the parsed JSON of the raw file when it exists.  A file that is
absent (or whose parse fails, making `readJson` return `null`) is `none`. -/
structure FS where
  debankDirs : List String
  debankFile : String → String → Option Js
  zerionFile : String → String → Option Js

/-- The body of the inner chain loop of `main`
(src/scripts/generate_comparison.js:207-223): `none` when neither
provider's raw file exists (the chain entry is skipped); otherwise both
normalizers run — a missing provider-A file reads as `null` (non-array,
hence empty snapshot) and a missing or falsy provider-B payload defaults
to `[]` via `zerionDataRaw || []`. -/
def processChainPair (fs : FS) (addr dId zId : String) :
    Option (Except String ComparisonRecord) :=
  let d := fs.debankFile addr dId
  let z := fs.zerionFile addr zId
  if d.isNone && z.isNone then none
  else some (
    match normalizeDeBank (d.getD .null) with
    | .error e => .error e
    | .ok db =>
      match normalizeZerion PROTOCOL_NAME_MAP (jsOr (z.getD .null) (.arr [])) (.str zId) with
      | .error e => .error e
      | .ok zr => .ok (ComparisonRecord.mk db zr))

/-- The `Object.keys(CHAIN_MAP).forEach` loop over chain pairs, building
the per-address record keyed by the canonical chain key. -/
def chainLoop (fs : FS) (addr : String) :
    List (String × String) → Except String (List (String × ComparisonRecord))
  | [] => .ok []
  | (dId, zId) :: rest =>
    match processChainPair fs addr dId zId with
    | none => chainLoop fs addr rest
    | some (.error e) => .error e
    | some (.ok rec) =>
      match chainLoop fs addr rest with
      | .error e => .error e
      | .ok others => .ok ((zId, rec) :: others)

/-- One address's output record `result[address]`. -/
def processAddress (fs : FS) (addr : String) :
    Except String (List (String × ComparisonRecord)) :=
  chainLoop fs addr CHAIN_MAP

/-- The `addresses.forEach` loop of `main`. -/
def addrLoop (fs : FS) :
    List String → Except String (List (String × List (String × ComparisonRecord)))
  | [] => .ok []
  | a :: as =>
    match processAddress fs a with
    | .error e => .error e
    | .ok l =>
      match addrLoop fs as with
      | .error e => .error e
      | .ok rest => .ok ((a, l) :: rest)

/-- The output dataset built by `main`
(src/scripts/generate_comparison.js:198-228): the addresses are the
directories of the provider-A data directory (`getDirectories(DATA_DIR_DEBANK)`);
each becomes one record of chain entries.  (The part_003 variant
additionally intersects the address list with a hard-coded allow-list
before this loop.) -/
def mainResult (fs : FS) :
    Except String (List (String × List (String × ComparisonRecord))) :=
  addrLoop fs fs.debankDirs

/-- A token entry that the provider-A token blocks dereference without
throwing: non-nullish with a string `symbol`. -/
def wfToken (t : Js) : Bool :=
  match t with
  | .null => false
  | .undefined => false
  | _ =>
    match t.jget "symbol" with
    | .str _ => true
    | _ => false

/-- A token-list field that `normalizeDeBank` traverses without throwing:
absent/falsy, or an array of well-formed tokens. -/
def wfTokenList (detail : Js) (k : String) : Bool :=
  match detail.jget k with
  | .arr tokens => tokens.all wfToken
  | v => !v.truthy

/-- A portfolio item processed without throwing: non-nullish, with a
non-nullish `stats`, and well-formed token lists when `detail` is truthy. -/
def wfItem (item : Js) : Bool :=
  match item with
  | .null => false
  | .undefined => false
  | _ =>
    (match item.jget "stats" with
     | .null => false
     | .undefined => false
     | _ => true) &&
    (let detail := item.jget "detail"
     if detail.truthy then
       wfTokenList detail "supply_token_list" && wfTokenList detail "borrow_token_list" &&
         wfTokenList detail "reward_token_list"
     else true)

/-- A protocol record processed without throwing: non-nullish, with an
array `portfolio_item_list` of well-formed items. -/
def wfProto (proto : Js) : Bool :=
  match proto with
  | .null => false
  | .undefined => false
  | _ =>
    match proto.jget "portfolio_item_list" with
    | .arr items => items.all wfItem
    | _ => false

/-- Input on which `normalizeDeBank` cannot throw: non-array (degraded to
the empty snapshot), or an array of well-formed protocol records. -/
def wfDeBank (chainData : Js) : Bool :=
  match chainData with
  | .arr protos => protos.all wfProto
  | _ => true

/-- A provider-B position processed without throwing: non-nullish, and
when its attribute bag and protocol are truthy, a fungible symbol that is
either falsy (degraded to the placeholder) or a string. -/
def wfPos (pos : Js) : Bool :=
  match pos with
  | .null => false
  | .undefined => false
  | _ =>
    let attrs := pos.jget "attributes"
    if attrs.truthy then
      if (attrs.jget "protocol").truthy then
        match jsOr ((attrs.jget "fungible_info").optGet "symbol") (.str "?") with
        | .str _ => true
        | _ => false
      else true
    else true

/-- Input on which `normalizeZerion` cannot throw: non-nullish, with all
selected position items well-formed. -/
def wfZerion (raw : Js) : Bool :=
  match raw with
  | .null => false
  | .undefined => false
  | _ =>
    match zerionItems raw with
    | .ok items => items.all wfPos
    | .error _ => false

/-- Effect of one contribution on the bucket stored under its key: create
it, or fold the value and assets onto the existing bucket. -/
def applyC (op : Option Protocol) (c : Contribution) : Option Protocol :=
  match op with
  | none => some (Protocol.mk c.name c.id c.val c.assets)
  | some p => some (Protocol.mk p.name p.id (p.value + c.val) (p.assets ++ c.assets))

/-- Cumulative effect of a list of contributions on one bucket. -/
def accF (op : Option Protocol) (cs : List Contribution) : Option Protocol :=
  cs.foldl applyC op

/-- Sum of bucket values over a protocol map. -/
def mapValueSum (ps : List (String × Protocol)) : ℚ :=
  (ps.map (fun kp => kp.2.value)).sum

theorem plookup_bucketAdd (ps : List (String × Protocol)) (c : Contribution) (k : String) :
    plookup k (bucketAdd ps c) =
      if c.key = k then applyC (plookup k ps) c else plookup k ps := by
  induction ps with
  | nil =>
    rcases eq_or_ne c.key k with h | h <;> simp [bucketAdd, plookup, applyC, h]
  | cons kp rest ih =>
    obtain ⟨k2, p⟩ := kp
    rcases eq_or_ne k2 c.key with h1 | h1
    · subst h1
      rcases eq_or_ne c.key k with h2 | h2
      · subst h2
        simp [bucketAdd, plookup, applyC]
      · simp [bucketAdd, plookup, h2]
    · rcases eq_or_ne k2 k with h2 | h2
      · subst h2
        simp [bucketAdd, plookup, h1, Ne.symm h1]
      · simp [bucketAdd, plookup, h1, h2, ih]

theorem plookup_eq_none_iff (ps : List (String × Protocol)) (k : String) :
    plookup k ps = none ↔ k ∉ pkeys ps := by
  induction ps with
  | nil => simp [plookup, pkeys]
  | cons kp rest ih =>
    obtain ⟨k2, p⟩ := kp
    rcases eq_or_ne k2 k with h | h
    · subst h
      simp [plookup, pkeys]
    · simp [plookup, pkeys, h, Ne.symm h, ih]

theorem pkeys_bucketAdd (ps : List (String × Protocol)) (c : Contribution) :
    pkeys (bucketAdd ps c) =
      if (plookup c.key ps).isSome then pkeys ps else pkeys ps ++ [c.key] := by
  induction ps with
  | nil => simp [bucketAdd, plookup, pkeys]
  | cons kp rest ih =>
    obtain ⟨k2, p⟩ := kp
    rcases eq_or_ne k2 c.key with h | h
    · subst h
      simp [bucketAdd, plookup, pkeys]
    · simp only [bucketAdd, if_neg h, plookup, if_neg (Ne.symm h), pkeys, List.map_cons]
      rw [pkeys] at ih
      rw [ih]
      by_cases h5 : (plookup c.key rest).isSome <;> simp [h5, pkeys]

theorem pkeys_nodup_bucketAdd (ps : List (String × Protocol)) (c : Contribution)
    (h : (pkeys ps).Nodup) : (pkeys (bucketAdd ps c)).Nodup := by
  rw [pkeys_bucketAdd]
  by_cases h2 : (plookup c.key ps).isSome
  · simpa [h2]
  · have h3 : plookup c.key ps = none := by
      cases h4 : plookup c.key ps
      · rfl
      · rw [h4] at h2; simp at h2
    have h5 : c.key ∉ pkeys ps := (plookup_eq_none_iff ps c.key).mp h3
    simp [h2, List.nodup_append, h, h5]

theorem mapValueSum_bucketAdd (ps : List (String × Protocol)) (c : Contribution) :
    mapValueSum (bucketAdd ps c) = mapValueSum ps + c.val := by
  induction ps with
  | nil => simp [bucketAdd, mapValueSum]
  | cons kp rest ih =>
    obtain ⟨k2, p⟩ := kp
    rcases eq_or_ne k2 c.key with h | h
    · subst h
      simp [bucketAdd, mapValueSum]
      ring
    · simp [bucketAdd, mapValueSum, h] at *
      rw [ih]
      ring

theorem totalValue_foldl (cs : List Contribution) :
    ∀ snap : Snapshot, (cs.foldl snapAdd snap).totalValue =
      snap.totalValue + (cs.map Contribution.val).sum := by
  induction cs with
  | nil => intro snap; simp
  | cons c rest ih =>
    intro snap
    simp only [List.foldl_cons, List.map_cons, List.sum_cons]
    rw [ih]
    simp [snapAdd]
    ring

theorem mapValueSum_foldl (cs : List Contribution) :
    ∀ snap : Snapshot, mapValueSum ((cs.foldl snapAdd snap).protocols) =
      mapValueSum snap.protocols + (cs.map Contribution.val).sum := by
  induction cs with
  | nil => intro snap; simp
  | cons c rest ih =>
    intro snap
    simp only [List.foldl_cons, List.map_cons, List.sum_cons]
    rw [ih]
    simp [snapAdd, mapValueSum_bucketAdd]
    ring

theorem pkeys_nodup_foldl (cs : List Contribution) :
    ∀ snap : Snapshot, (pkeys snap.protocols).Nodup →
      (pkeys (cs.foldl snapAdd snap).protocols).Nodup := by
  induction cs with
  | nil => intro snap h; simpa
  | cons c rest ih =>
    intro snap h
    simp only [List.foldl_cons]
    exact ih _ (pkeys_nodup_bucketAdd _ _ h)

theorem plookup_foldl (cs : List Contribution) :
    ∀ (snap : Snapshot) (k : String),
      plookup k (cs.foldl snapAdd snap).protocols =
        accF (plookup k snap.protocols) (cs.filter (fun c => c.key = k)) := by
  induction cs with
  | nil => intro snap k; simp [accF]
  | cons c rest ih =>
    intro snap k
    simp only [List.foldl_cons]
    rw [ih]
    rcases eq_or_ne c.key k with h | h
    · simp only [snapAdd, plookup_bucketAdd, if_pos h, List.filter_cons, h]
      simp [accF]
    · simp only [snapAdd, plookup_bucketAdd, if_neg h, List.filter_cons]
      simp [h]

theorem accF_some (cs : List Contribution) :
    ∀ p : Protocol, accF (some p) cs =
      some (Protocol.mk p.name p.id (p.value + (cs.map Contribution.val).sum)
        (p.assets ++ (cs.map Contribution.assets).flatten)) := by
  induction cs with
  | nil => intro p; simp [accF]
  | cons c rest ih =>
    intro p
    simp only [accF, List.foldl_cons] at *
    rw [show applyC (some p) c =
      some (Protocol.mk p.name p.id (p.value + c.val) (p.assets ++ c.assets)) from rfl]
    rw [ih]
    simp [List.append_assoc]
    ring

theorem accF_none_cons (c : Contribution) (cs : List Contribution) :
    accF none (c :: cs) =
      some (Protocol.mk c.name c.id (c.val + (cs.map Contribution.val).sum)
        (c.assets ++ (cs.map Contribution.assets).flatten)) := by
  simp only [accF, List.foldl_cons]
  rw [show applyC none c = some (Protocol.mk c.name c.id c.val c.assets) from rfl]
  exact accF_some cs _

/-- The contributions of a list of provider-A protocol records, in order
(proof auxiliary: `debankLoop` is this followed by a pure fold). -/
def contribsOf : List Js → Except String (List Contribution)
  | [] => .ok []
  | p :: ps =>
    match protoContrib p with
    | .error e => .error e
    | .ok c =>
      match contribsOf ps with
      | .error e => .error e
      | .ok cs => .ok (c :: cs)

theorem debankLoop_eq (ps : List Js) :
    ∀ snap : Snapshot, debankLoop snap ps =
      match contribsOf ps with
      | .error e => .error e
      | .ok cs => .ok (cs.foldl snapAdd snap) := by
  induction ps with
  | nil => intro snap; simp [debankLoop, contribsOf]
  | cons p rest ih =>
    intro snap
    simp only [debankLoop, contribsOf]
    cases hc : protoContrib p with
    | error e => rfl
    | ok c =>
      dsimp only
      rw [ih (snapAdd snap c)]
      cases hcs : contribsOf rest with
      | error e => rfl
      | ok cs => simp

/-- The retained (non-skipped) contributions of a list of provider-B
positions, in order (proof auxiliary: `zerionLoop` is this followed by a
pure fold). -/
def entriesOf (pmap : List (String × List (String × String))) (chainId : Js) :
    List Js → Except String (List Contribution)
  | [] => .ok []
  | pos :: ps =>
    match posEntry pmap chainId pos with
    | .error e => .error e
    | .ok none => entriesOf pmap chainId ps
    | .ok (some c) =>
      match entriesOf pmap chainId ps with
      | .error e => .error e
      | .ok cs => .ok (c :: cs)

theorem zerionLoop_eq (pmap : List (String × List (String × String)))
    (chainId : Js) (ps : List Js) :
    ∀ snap : Snapshot, zerionLoop pmap chainId snap ps =
      match entriesOf pmap chainId ps with
      | .error e => .error e
      | .ok cs => .ok (cs.foldl snapAdd snap) := by
  induction ps with
  | nil => intro snap; simp [zerionLoop, entriesOf]
  | cons pos rest ih =>
    intro snap
    simp only [zerionLoop, entriesOf, posStep]
    cases hc : posEntry pmap chainId pos with
    | error e => rfl
    | ok oc =>
      cases oc with
      | none => exact ih snap
      | some c =>
        dsimp only
        rw [ih (snapAdd snap c)]
        cases hcs : entriesOf pmap chainId rest with
        | error e => rfl
        | ok cs => simp

theorem getE_ok (v : Js) (k : String) (h1 : v ≠ .null) (h2 : v ≠ .undefined) :
    v.getE k = .ok (v.jget k) := by
  cases v
  case null => exact absurd rfl h1
  case undefined => exact absurd rfl h2
  all_goals rfl

theorem procSupplyToken_total (t : Js) (h : wfToken t = true) :
    ∃ a, procSupplyToken t = .ok a := by
  cases t with
  | obj fs =>
    simp only [wfToken, Js.jget] at h
    cases hsym : fieldGet fs "symbol" <;> rw [hsym] at h <;> simp at h
    case str s =>
      simp [procSupplyToken, Js.getE, Js.jget, hsym, Js.trimE]
  | null => simp [wfToken] at h
  | undefined => simp [wfToken] at h
  | bool b => simp [wfToken, Js.jget] at h
  | num q => simp [wfToken, Js.jget] at h
  | str s => simp [wfToken, Js.jget] at h
  | arr l => simp [wfToken, Js.jget] at h

theorem procBorrowToken_total (t : Js) (h : wfToken t = true) :
    ∃ a, procBorrowToken t = .ok a := by
  cases t with
  | obj fs =>
    simp only [wfToken, Js.jget] at h
    cases hsym : fieldGet fs "symbol" <;> rw [hsym] at h <;> simp at h
    case str s =>
      simp [procBorrowToken, Js.getE, Js.jget, hsym, Js.trimE]
  | null => simp [wfToken] at h
  | undefined => simp [wfToken] at h
  | bool b => simp [wfToken, Js.jget] at h
  | num q => simp [wfToken, Js.jget] at h
  | str s => simp [wfToken, Js.jget] at h
  | arr l => simp [wfToken, Js.jget] at h

theorem procRewardToken_total (t : Js) (h : wfToken t = true) :
    ∃ a, procRewardToken t = .ok a := by
  cases t with
  | obj fs =>
    simp only [wfToken, Js.jget] at h
    cases hsym : fieldGet fs "symbol" <;> rw [hsym] at h <;> simp at h
    case str s =>
      simp [procRewardToken, Js.getE, Js.jget, hsym, Js.trimE]
  | null => simp [wfToken] at h
  | undefined => simp [wfToken] at h
  | bool b => simp [wfToken, Js.jget] at h
  | num q => simp [wfToken, Js.jget] at h
  | str s => simp [wfToken, Js.jget] at h
  | arr l => simp [wfToken, Js.jget] at h

theorem procTokens_total (f : Js → Except String Asset)
    (hf : ∀ t, wfToken t = true → ∃ a, f t = .ok a) (ts : List Js)
    (h : ts.all wfToken = true) : ∃ as2, procTokens f ts = .ok as2 := by
  induction ts with
  | nil => exact ⟨[], rfl⟩
  | cons t rest ih =>
    simp only [List.all_cons, Bool.and_eq_true] at h
    obtain ⟨a, ha⟩ := hf t h.1
    obtain ⟨as2, has⟩ := ih h.2
    exact ⟨a :: as2, by simp [procTokens, ha, has]⟩

theorem procTokenList_total (detail : Js) (k : String) (f : Js → Except String Asset)
    (hf : ∀ t, wfToken t = true → ∃ a, f t = .ok a)
    (h : wfTokenList detail k = true) : ∃ as2, procTokenList detail k f = .ok as2 := by
  simp only [wfTokenList] at h
  cases hl : detail.jget k <;> rw [hl] at h
  case arr tokens => exact (procTokens_total f hf tokens h).imp (fun a ha => by
    simpa [procTokenList, hl] using ha)
  all_goals exact ⟨[], by simp_all [procTokenList, Js.truthy]⟩

theorem wfItem_spec (item : Js) (h : wfItem item = true) :
    (item ≠ .null ∧ item ≠ .undefined) ∧
    (item.jget "stats" ≠ .null ∧ item.jget "stats" ≠ .undefined) ∧
    ((item.jget "detail").truthy = true →
      wfTokenList (item.jget "detail") "supply_token_list" = true ∧
      wfTokenList (item.jget "detail") "borrow_token_list" = true ∧
      wfTokenList (item.jget "detail") "reward_token_list" = true) := by
  cases item with
  | null => simp [wfItem] at h
  | undefined => simp [wfItem] at h
  | bool b =>
    simp only [wfItem, Bool.and_eq_true] at h
    cases hst : (Js.bool b).jget "stats" <;> rw [hst] at h <;> simp_all [Js.jget]
  | num q =>
    simp only [wfItem, Bool.and_eq_true] at h
    cases hst : (Js.num q).jget "stats" <;> rw [hst] at h <;> simp_all [Js.jget]
  | str s =>
    simp only [wfItem, Bool.and_eq_true] at h
    cases hst : (Js.str s).jget "stats" <;> rw [hst] at h <;> simp_all [Js.jget]
  | arr l =>
    simp only [wfItem, Bool.and_eq_true] at h
    cases hst : (Js.arr l).jget "stats" <;> rw [hst] at h <;> simp_all [Js.jget]
  | obj fs =>
    simp only [wfItem, Bool.and_eq_true] at h
    obtain ⟨h1, h2⟩ := h
    refine ⟨⟨by simp, by simp⟩, ?_, ?_⟩
    · cases hst : (Js.obj fs).jget "stats" <;> rw [hst] at h1 <;> simp_all
    · intro hd
      rw [if_pos hd] at h2
      simp only [Bool.and_eq_true] at h2
      exact ⟨h2.1.1, h2.1.2, h2.2⟩

theorem procItem_total (item : Js) (h : wfItem item = true) :
    ∃ r, procItem item = .ok r := by
  obtain ⟨⟨hn1, hn2⟩, ⟨hs1, hs2⟩, hdet⟩ := wfItem_spec item h
  rw [procItem.eq_def, getE_ok item "stats" hn1 hn2]
  dsimp only
  rw [getE_ok (item.jget "stats") "net_usd_value" hs1 hs2]
  dsimp only
  by_cases hd : (item.jget "detail").truthy
  · obtain ⟨hw1, hw2, hw3⟩ := hdet hd
    obtain ⟨s1, e1⟩ := procTokenList_total _ _ _ procSupplyToken_total hw1
    obtain ⟨s2, e2⟩ := procTokenList_total _ _ _ procBorrowToken_total hw2
    obtain ⟨s3, e3⟩ := procTokenList_total _ _ _ procRewardToken_total hw3
    simp [hd, e1, e2, e3]
  · simp [hd]

theorem procItems_total (items : List Js) (h : items.all wfItem = true) :
    ∃ rs, procItems items = .ok rs := by
  induction items with
  | nil => exact ⟨[], rfl⟩
  | cons i rest ih =>
    simp only [List.all_cons, Bool.and_eq_true] at h
    obtain ⟨r, hr⟩ := procItem_total i h.1
    obtain ⟨rs, hrs⟩ := ih h.2
    exact ⟨r :: rs, by simp [procItems, hr, hrs]⟩

theorem protoContrib_total (proto : Js) (h : wfProto proto = true) :
    ∃ c, protoContrib proto = .ok c := by
  have hnn : proto ≠ .null ∧ proto ≠ .undefined := by
    constructor <;> rintro rfl <;> simp [wfProto] at h
  have hpil : ∃ items, proto.jget "portfolio_item_list" = .arr items ∧
      items.all wfItem = true := by
    cases proto <;> simp only [wfProto] at h <;>
      first
      | simp at h
      | (cases hl : Js.jget _ "portfolio_item_list" <;> rw [hl] at h <;> simp_all)
  obtain ⟨items, hl, hwf⟩ := hpil
  obtain ⟨rs, hrs⟩ := procItems_total items hwf
  rw [protoContrib.eq_def, getE_ok proto "name" hnn.1 hnn.2]
  dsimp only
  rw [hl]
  simp [hrs]

theorem contribsOf_total (ps : List Js) (h : ps.all wfProto = true) :
    ∃ cs, contribsOf ps = .ok cs := by
  induction ps with
  | nil => exact ⟨[], rfl⟩
  | cons p rest ih =>
    simp only [List.all_cons, Bool.and_eq_true] at h
    obtain ⟨c, hc⟩ := protoContrib_total p h.1
    obtain ⟨cs, hcs⟩ := ih h.2
    exact ⟨c :: cs, by simp [contribsOf, hc, hcs]⟩

theorem normalizeDeBank_total (chainData : Js) (h : wfDeBank chainData = true) :
    ∃ s, normalizeDeBank chainData = .ok s := by
  cases chainData with
  | arr protos =>
    simp only [wfDeBank] at h
    obtain ⟨cs, hcs⟩ := contribsOf_total protos h
    refine ⟨cs.foldl snapAdd emptySnapshot, ?_⟩
    rw [normalizeDeBank, debankLoop_eq, hcs]
  | null => exact ⟨emptySnapshot, rfl⟩
  | undefined => exact ⟨emptySnapshot, rfl⟩
  | bool b => exact ⟨emptySnapshot, rfl⟩
  | num q => exact ⟨emptySnapshot, rfl⟩
  | str s => exact ⟨emptySnapshot, rfl⟩
  | obj fs => exact ⟨emptySnapshot, rfl⟩

theorem wfPos_spec (pos : Js) (h : wfPos pos = true) :
    pos ≠ .null ∧ pos ≠ .undefined ∧
    ((pos.jget "attributes").truthy = true →
      ((pos.jget "attributes").jget "protocol").truthy = true →
      ∃ s2, jsOr (((pos.jget "attributes").jget "fungible_info").optGet "symbol")
        (.str "?") = .str s2) := by
  cases pos with
  | null => simp [wfPos] at h
  | undefined => simp [wfPos] at h
  | bool b =>
    refine ⟨by simp, by simp, fun ha hp => ?_⟩
    simp only [wfPos] at h
    rw [if_pos ha, if_pos hp] at h
    cases hv : jsOr ((((Js.bool b).jget "attributes").jget "fungible_info").optGet "symbol")
        (Js.str "?") <;> rw [hv] at h <;> simp at h
    exact ⟨_, rfl⟩
  | num q =>
    refine ⟨by simp, by simp, fun ha hp => ?_⟩
    simp only [wfPos] at h
    rw [if_pos ha, if_pos hp] at h
    cases hv : jsOr ((((Js.num q).jget "attributes").jget "fungible_info").optGet "symbol")
        (Js.str "?") <;> rw [hv] at h <;> simp at h
    exact ⟨_, rfl⟩
  | str s2 =>
    refine ⟨by simp, by simp, fun ha hp => ?_⟩
    simp only [wfPos] at h
    rw [if_pos ha, if_pos hp] at h
    cases hv : jsOr ((((Js.str s2).jget "attributes").jget "fungible_info").optGet "symbol")
        (Js.str "?") <;> rw [hv] at h <;> simp at h
    exact ⟨_, rfl⟩
  | arr l =>
    refine ⟨by simp, by simp, fun ha hp => ?_⟩
    simp only [wfPos] at h
    rw [if_pos ha, if_pos hp] at h
    cases hv : jsOr ((((Js.arr l).jget "attributes").jget "fungible_info").optGet "symbol")
        (Js.str "?") <;> rw [hv] at h <;> simp at h
    exact ⟨_, rfl⟩
  | obj fs =>
    refine ⟨by simp, by simp, fun ha hp => ?_⟩
    simp only [wfPos] at h
    rw [if_pos ha, if_pos hp] at h
    cases hv : jsOr ((((Js.obj fs).jget "attributes").jget "fungible_info").optGet "symbol")
        (Js.str "?") <;> rw [hv] at h <;> simp at h
    exact ⟨_, rfl⟩

theorem posEntry_total (pmap : List (String × List (String × String))) (chainId : Js)
    (pos : Js) (h : wfPos pos = true) : ∃ oc, posEntry pmap chainId pos = .ok oc := by
  obtain ⟨hn1, hn2, hsym⟩ := wfPos_spec pos h
  rw [posEntry.eq_def, getE_ok pos "attributes" hn1 hn2]
  dsimp only
  by_cases ha : (pos.jget "attributes").truthy
  · rw [if_pos ha]
    by_cases hp : ((pos.jget "attributes").jget "protocol").truthy
    · rw [if_pos hp]
      obtain ⟨s2, hs2⟩ := hsym ha hp
      rw [hs2]
      exact ⟨_, rfl⟩
    · rw [if_neg hp]
      exact ⟨none, rfl⟩
  · rw [if_neg ha]
    exact ⟨none, rfl⟩

theorem entriesOf_total (pmap : List (String × List (String × String))) (chainId : Js)
    (ps : List Js) (h : ps.all wfPos = true) :
    ∃ cs, entriesOf pmap chainId ps = .ok cs := by
  induction ps with
  | nil => exact ⟨[], rfl⟩
  | cons pos rest ih =>
    simp only [List.all_cons, Bool.and_eq_true] at h
    obtain ⟨oc, hoc⟩ := posEntry_total pmap chainId pos h.1
    obtain ⟨cs, hcs⟩ := ih h.2
    cases oc with
    | none => exact ⟨cs, by simp [entriesOf, hoc, hcs]⟩
    | some c => exact ⟨c :: cs, by simp [entriesOf, hoc, hcs]⟩

theorem zerionItems_ok (raw : Js) (h1 : raw ≠ .null) (h2 : raw ≠ .undefined) :
    ∃ items, zerionItems raw = .ok items := by
  rw [zerionItems.eq_def, getE_ok raw "data" h1 h2]
  cases hd : raw.jget "data"
  all_goals cases raw <;> exact ⟨_, rfl⟩

theorem normalizeZerion_total (pmap : List (String × List (String × String)))
    (raw : Js) (chainId : Js) (h : wfZerion raw = true) :
    ∃ s, normalizeZerion pmap raw chainId = .ok s := by
  have hnn : raw ≠ .null ∧ raw ≠ .undefined := by
    constructor <;> rintro rfl <;> simp [wfZerion] at h
  obtain ⟨items, hitems⟩ := zerionItems_ok raw hnn.1 hnn.2
  have hall : items.all wfPos = true := by
    cases raw <;> simp only [wfZerion] at h <;>
      first
      | simp at h
      | (rw [hitems] at h; exact h)
  obtain ⟨cs, hcs⟩ := entriesOf_total pmap chainId items hall
  refine ⟨cs.foldl snapAdd emptySnapshot, ?_⟩
  rw [normalizeZerion, hitems]
  dsimp only
  rw [zerionLoop_eq, hcs]

theorem filter_key_spec (cs : List Contribution) (k : String) (p : Protocol)
    (h : accF none (cs.filter (fun c => c.key = k)) = some p) :
    ∃ c0 rest, cs.filter (fun c => c.key = k) = c0 :: rest ∧
      p.name = c0.name ∧ p.id = c0.id ∧
      p.value = ((cs.filter (fun c => c.key = k)).map Contribution.val).sum ∧
      p.assets = ((cs.filter (fun c => c.key = k)).map Contribution.assets).flatten := by
  cases hf : cs.filter (fun c => c.key = k) with
  | nil => rw [hf] at h; simp [accF] at h
  | cons c0 rest =>
    rw [hf, accF_none_cons] at h
    obtain rfl := Option.some.inj h
    refine ⟨c0, rest, rfl, rfl, rfl, ?_, ?_⟩ <;> simp [hf]

theorem snapFold_spec (cs : List Contribution) :
    (cs.foldl snapAdd emptySnapshot).totalValue = (cs.map Contribution.val).sum ∧
    protoSum (cs.foldl snapAdd emptySnapshot) = (cs.map Contribution.val).sum ∧
    (pkeys (cs.foldl snapAdd emptySnapshot).protocols).Nodup ∧
    (∀ k p, plookup k (cs.foldl snapAdd emptySnapshot).protocols = some p →
      ∃ c0 rest, cs.filter (fun c => c.key = k) = c0 :: rest ∧
        p.name = c0.name ∧ p.id = c0.id ∧
        p.value = ((cs.filter (fun c => c.key = k)).map Contribution.val).sum ∧
        p.assets = ((cs.filter (fun c => c.key = k)).map Contribution.assets).flatten) := by
  refine ⟨?_, ?_, ?_, ?_⟩
  · rw [totalValue_foldl]
    simp [emptySnapshot]
  · show mapValueSum (cs.foldl snapAdd emptySnapshot).protocols = _
    rw [mapValueSum_foldl]
    simp [emptySnapshot, mapValueSum]
  · exact pkeys_nodup_foldl cs emptySnapshot (by simp [emptySnapshot, pkeys])
  · intro k p hp
    rw [plookup_foldl] at hp
    exact filter_key_spec cs k p (by simpa [emptySnapshot, plookup] using hp)

theorem normalizeDeBank_ok_arr (protos : List Js) (s : Snapshot)
    (h : normalizeDeBank (.arr protos) = .ok s) :
    ∃ cs, contribsOf protos = .ok cs ∧ s = cs.foldl snapAdd emptySnapshot := by
  rw [normalizeDeBank, debankLoop_eq] at h
  cases hcs : contribsOf protos <;> rw [hcs] at h <;> simp at h
  exact ⟨_, rfl, h.symm⟩

theorem normalizeDeBank_ok_notArr (chainData : Js) (s : Snapshot)
    (h : normalizeDeBank chainData = .ok s)
    (h2 : ∀ protos, chainData ≠ .arr protos) : s = emptySnapshot := by
  cases chainData with
  | arr protos => exact absurd rfl (h2 protos)
  | null => simpa [normalizeDeBank] using h.symm
  | undefined => simpa [normalizeDeBank] using h.symm
  | bool b => simpa [normalizeDeBank] using h.symm
  | num q => simpa [normalizeDeBank] using h.symm
  | str s2 => simpa [normalizeDeBank] using h.symm
  | obj fs => simpa [normalizeDeBank] using h.symm

theorem normalizeZerion_ok (pmap : List (String × List (String × String)))
    (raw chainId : Js) (s : Snapshot) (h : normalizeZerion pmap raw chainId = .ok s) :
    ∃ items cs, zerionItems raw = .ok items ∧ entriesOf pmap chainId items = .ok cs ∧
      s = cs.foldl snapAdd emptySnapshot := by
  rw [normalizeZerion.eq_def] at h
  cases hitems : zerionItems raw <;> rw [hitems] at h
  · exact absurd h (by simp)
  · dsimp only at h
    rw [zerionLoop_eq] at h
    cases hcs : entriesOf pmap chainId _ <;> rw [hcs] at h <;> simp at h
    exact ⟨_, _, rfl, hcs, h.symm⟩

/-- The provider-A input of the C6 scenario. -/
def c6input : Js :=
  .arr [.obj [("name", .str "Aave V3"), ("id", .str "aave3"),
    ("portfolio_item_list", .arr [.obj [
      ("stats", .obj [("net_usd_value", .num 100)]),
      ("detail", .obj [("supply_token_list", .arr [.obj [
        ("symbol", .str " USDC "), ("amount", .num 100), ("price", .num 1)]])])]])]]

/-- C6: on the scenario input `[{name:"Aave V3", id:"aave3",
portfolio_item_list:[{stats:{net_usd_value:100},
detail:{supply_token_list:[{symbol:" USDC ",amount:100,price:1}]}}]}]`,
`normalizeDeBank` returns exactly the snapshot with one protocol bucket
`"Aave V3"` of value 100 whose single asset is
`{symbol:"USDC", amount:100, price:1, value:100, type:"supply"}` — the
symbol trimmed of surrounding whitespace and the asset's role (the `type`
field) equal to `supply` — and `totalValue` 100. -/
theorem c6_scenario_exact :
    normalizeDeBank c6input = .ok (Snapshot.mk
      [("Aave V3", Protocol.mk (.str "Aave V3") (.str "aave3") 100
        [Asset.mk "USDC" (.num 100) (.num 1) 100 (.str "supply") .undefined])]
      100) := by
  with_unfolding_all rfl

theorem normalizeDeBank_spec (chainData : Js) (s : Snapshot)
    (h : normalizeDeBank chainData = .ok s) :
    s.totalValue = protoSum s ∧ (pkeys s.protocols).Nodup ∧
    ∀ protos cs, chainData = .arr protos → contribsOf protos = .ok cs →
      ∀ k p, plookup k s.protocols = some p →
        ∃ c0 rest, cs.filter (fun c => c.key = k) = c0 :: rest ∧
          p.name = c0.name ∧ p.id = c0.id ∧
          p.value = ((cs.filter (fun c => c.key = k)).map Contribution.val).sum ∧
          p.assets = ((cs.filter (fun c => c.key = k)).map Contribution.assets).flatten := by
  by_cases ha : ∃ protos, chainData = .arr protos
  · obtain ⟨protos, rfl⟩ := ha
    obtain ⟨cs, hcs, rfl⟩ := normalizeDeBank_ok_arr protos s h
    obtain ⟨h1, h2, h3, h4⟩ := snapFold_spec cs
    refine ⟨by rw [h1, h2], h3, ?_⟩
    rintro protos2 cs2 heq hcs2 k p hp
    obtain rfl : protos = protos2 := by injection heq
    rw [hcs] at hcs2
    obtain rfl : cs = cs2 := by injection hcs2
    exact h4 k p hp
  · have hs := normalizeDeBank_ok_notArr chainData s h (fun protos hcon => ha ⟨protos, hcon⟩)
    subst hs
    refine ⟨by simp [emptySnapshot, protoSum], by simp [emptySnapshot, pkeys], ?_⟩
    rintro protos cs heq
    exact absurd ⟨protos, heq⟩ ha

theorem normalizeZerion_spec (pmap : List (String × List (String × String)))
    (raw chainId : Js) (s : Snapshot) (h : normalizeZerion pmap raw chainId = .ok s) :
    s.totalValue = protoSum s ∧ (pkeys s.protocols).Nodup ∧
    ∀ items cs, zerionItems raw = .ok items → entriesOf pmap chainId items = .ok cs →
      ∀ k p, plookup k s.protocols = some p →
        ∃ c0 rest, cs.filter (fun c => c.key = k) = c0 :: rest ∧
          p.name = c0.name ∧ p.id = c0.id ∧
          p.value = ((cs.filter (fun c => c.key = k)).map Contribution.val).sum ∧
          p.assets = ((cs.filter (fun c => c.key = k)).map Contribution.assets).flatten := by
  obtain ⟨items, cs, hitems, hcs, rfl⟩ := normalizeZerion_ok pmap raw chainId s h
  obtain ⟨h1, h2, h3, h4⟩ := snapFold_spec cs
  refine ⟨by rw [h1, h2], h3, ?_⟩
  rintro items2 cs2 hitems2 hcs2 k p hp
  rw [hitems] at hitems2
  obtain rfl : items = items2 := by injection hitems2
  rw [hcs] at hcs2
  obtain rfl : cs = cs2 := by injection hcs2
  exact h4 k p hp

/-- The C1 counterexample input: a protocol record whose reported
`net_usd_value` (100) differs from the sum of its asset values (1·1 = 1). -/
def c1protos : List Js :=
  [.obj [("name", .str "X"), ("id", .str "x"),
    ("portfolio_item_list", .arr [.obj [
      ("stats", .obj [("net_usd_value", .num 100)]),
      ("detail", .obj [("supply_token_list", .arr [.obj [
        ("symbol", .str "T"), ("amount", .num 1), ("price", .num 1)]])])]])]]

/-- The C1 counterexample input as passed to `normalizeDeBank`. -/
def c1input : Js := .arr c1protos

/-- The single asset of the C1 counterexample output. -/
def c1asset : Asset := Asset.mk "T" (.num 1) (.num 1) 1 (.str "supply") .undefined

/-- The single protocol bucket of the C1 counterexample output. -/
def c1proto : Protocol := Protocol.mk (.str "X") (.str "x") 100 [c1asset]

/-- The C1 counterexample output snapshot. -/
def c1snap : Snapshot := Snapshot.mk [("X", c1proto)] 100

/-- The contribution list of the C1 counterexample input. -/
def c1contribs : List Contribution :=
  [Contribution.mk "X" (.str "X") (.str "x") 100 [c1asset]]

/-- C1 counterexample: `normalizeDeBank` computes a protocol's `value` from
the portfolio items' `net_usd_value` (here 100), not from the sum of the
`assets[*].value` fields (here 1·1 = 1), so on this snapshot the bucket's
`value` is NOT the arithmetic sum of its asset values — refuting the claim
that `value` always equals `sum(assets[*].value)`. -/
theorem c1_counterexample :
    normalizeDeBank c1input = .ok c1snap ∧
    plookup "X" c1snap.protocols = some c1proto ∧
    c1proto.value = 100 ∧ assetValueSum c1proto.assets = 1 ∧
    c1proto.value ≠ assetValueSum c1proto.assets := by
  refine ⟨by with_unfolding_all rfl, by with_unfolding_all rfl,
    by with_unfolding_all rfl, by with_unfolding_all rfl, ?_⟩
  norm_num [c1proto, c1asset, assetValueSum]

/-- C1 (amended): for every provider-A snapshot produced by
`normalizeDeBank`, `totalValue` equals the sum of all protocols' `value`
fields; and each protocol's `value` is the sum of the per-record
contribution values — which `protoContrib` computes from the portfolio
items' `stats.net_usd_value` fields, independently of the asset values. -/
theorem c1_amended (chainData : Js) (s : Snapshot)
    (h : normalizeDeBank chainData = .ok s) :
    s.totalValue = protoSum s ∧
    ∀ protos cs, chainData = .arr protos → contribsOf protos = .ok cs →
      ∀ k p, plookup k s.protocols = some p →
        p.value = ((cs.filter (fun c => c.key = k)).map Contribution.val).sum := by
  obtain ⟨h1, _, h3⟩ := normalizeDeBank_spec chainData s h
  refine ⟨h1, ?_⟩
  intro protos cs heq hcs k p hp
  obtain ⟨c0, rest, hfil, hname, hid, hval, hassets⟩ := h3 protos cs heq hcs k p hp
  exact hval

/-- Witness for C1 (amended) at the concrete counterexample input. -/
theorem c1_amended_witness :
    c1snap.totalValue = protoSum c1snap ∧
    c1proto.value = ((c1contribs.filter (fun c => c.key = "X")).map Contribution.val).sum := by
  have h := c1_amended c1input c1snap (by with_unfolding_all rfl)
  exact ⟨h.1, h.2 c1protos c1contribs rfl (by with_unfolding_all rfl) "X" c1proto
    (by with_unfolding_all rfl)⟩

theorem getE_ok_eq (v : Js) (k : String) (w : Js) (h : v.getE k = .ok w) :
    w = v.jget k := by
  cases v
  case null => exact absurd h (by simp [Js.getE])
  case undefined => exact absurd h (by simp [Js.getE])
  all_goals exact (Except.ok.inj h).symm

/-- The C5 scenario input `{data:[{attributes:{protocol:null,value:50}}]}`. -/
def c5input : Js :=
  .obj [("data", .arr [.obj [("attributes",
    .obj [("protocol", .null), ("value", .num 50)])]])]

/-- C5: a provider-B position whose protocol attribute is null or absent is
excluded entirely by `normalizeZerion`: the position step leaves the
snapshot unchanged (no bucket, no asset, no totalValue contribution), and
the scenario input `{data:[{attributes:{protocol:null,value:50}}]}` yields
the empty snapshot `{protocols:{}, totalValue:0}`. -/
theorem c5_null_protocol_excluded :
    (∀ pmap chainId (snap : Snapshot) (pos attrs : Js),
      pos.getE "attributes" = .ok attrs →
      ((attrs.jget "protocol") = .null ∨ (attrs.jget "protocol") = .undefined) →
      posStep pmap chainId snap pos = .ok snap) ∧
    normalizeZerion PROTOCOL_NAME_MAP c5input (.str "ethereum") = .ok emptySnapshot := by
  constructor
  · intro pmap chainId snap pos attrs hget hproto
    have he : posEntry pmap chainId pos = .ok none := by
      rw [posEntry.eq_def, hget]
      dsimp only
      by_cases ha : attrs.truthy
      · rw [if_pos ha, if_neg ?_]
        have hp : (attrs.jget "protocol").truthy = false := by
          rcases hproto with h | h <;> rw [h] <;> rfl
        simp [hp]
      · rw [if_neg ha]
    rw [posStep.eq_def, he]
  · with_unfolding_all rfl

/-- Witness for C5 at the concrete scenario position. -/
theorem c5_witness :
    posStep PROTOCOL_NAME_MAP (.str "ethereum") emptySnapshot
      (.obj [("attributes", .obj [("protocol", .null), ("value", .num 50)])]) =
      .ok emptySnapshot :=
  c5_null_protocol_excluded.1 PROTOCOL_NAME_MAP (.str "ethereum") emptySnapshot
    (.obj [("attributes", .obj [("protocol", .null), ("value", .num 50)])])
    (.obj [("protocol", .null), ("value", .num 50)])
    (by with_unfolding_all rfl) (Or.inl (by with_unfolding_all rfl))

/-- C9: for every provider-B position processed by `normalizeZerion`, the
emitted asset's role (`type`) is `normalizePositionType` of the raw
`position_type`: `locked` and `staked` are coalesced to `supply`, and every
other tag passes through unchanged. -/
theorem c9_type_coalescing :
    (∀ t : Js,
      ((t = .str "locked" ∨ t = .str "staked") → normalizePositionType t = .str "supply") ∧
      (t ≠ .str "locked" → t ≠ .str "staked" → normalizePositionType t = t)) ∧
    (∀ pmap chainId (pos : Js) (c : Contribution),
      posEntry pmap chainId pos = .ok (some c) →
      ∃ a, c.assets = [a] ∧
        a.type = normalizePositionType ((pos.jget "attributes").jget "position_type")) := by
  constructor
  · intro t
    constructor
    · rintro (rfl | rfl) <;> rfl
    · intro h1 h2
      cases t with
      | str s2 =>
        have hs1 : s2 ≠ "locked" := fun hh => h1 (by rw [hh])
        have hs2 : s2 ≠ "staked" := fun hh => h2 (by rw [hh])
        simp [normalizePositionType, hs1, hs2]
      | null => rfl
      | undefined => rfl
      | bool b => rfl
      | num q => rfl
      | arr l => rfl
      | obj fs => rfl
  · intro pmap chainId pos c h
    cases hget : pos.getE "attributes" with
    | error e =>
      rw [posEntry.eq_def, hget] at h
      exact absurd h (by simp)
    | ok attrs =>
      obtain rfl := getE_ok_eq pos "attributes" attrs hget
      rw [posEntry.eq_def, hget] at h
      dsimp only at h
      by_cases ha : (pos.jget "attributes").truthy
      · rw [if_pos ha] at h
        by_cases hp : ((pos.jget "attributes").jget "protocol").truthy
        · rw [if_pos hp] at h
          cases htr : (jsOr (((pos.jget "attributes").jget "fungible_info").optGet "symbol")
              (.str "?")).trimE with
          | error e =>
            rw [htr] at h
            exact absurd h (by simp)
          | ok symS =>
            rw [htr] at h
            dsimp only at h
            obtain rfl : c = _ := (Option.some.inj (Except.ok.inj h)).symm
            exact ⟨_, rfl, rfl⟩
        · rw [if_neg hp] at h
          exact absurd h (by simp)
      · rw [if_neg ha] at h
        exact absurd h (by simp)

/-- The staked provider-B position of the C9 witness. -/
def c9pos : Js :=
  .obj [("attributes", .obj
    [("protocol", .str "Velodrome"), ("value", .num 10),
     ("position_type", .str "staked"),
     ("fungible_info", .obj [("symbol", .str "OP")]),
     ("quantity", .obj [("float", .num 2)]), ("price", .num 3)])]

/-- Witness for C9 at a concrete staked position. -/
theorem c9_witness :
    normalizePositionType (.str "staked") = .str "supply" ∧
    normalizePositionType (.str "deposited") = .str "deposited" ∧
    (∃ a, ([Asset.mk "OP" (.num 2) (.num 3) 10 (.str "supply") .undefined] : List Asset) = [a] ∧
      a.type = normalizePositionType ((c9pos.jget "attributes").jget "position_type")) := by
  refine ⟨(c9_type_coalescing.1 (.str "staked")).1 (Or.inr rfl),
    (c9_type_coalescing.1 (.str "deposited")).2 (by simp) (by simp), ?_⟩
  have h := c9_type_coalescing.2 PROTOCOL_NAME_MAP (.str "optimism") c9pos
    (Contribution.mk "Velodrome" (.str "Velodrome") (.str "Velodrome") 10
      [Asset.mk "OP" (.num 2) (.num 3) 10 (.str "supply") .undefined])
    (by with_unfolding_all rfl)
  exact h

/-- C8: alias resolution is a pure chain-scoped lookup.  For every alias
table, nonempty chain key `c` and provider-B name `n`: when the table has a
(truthy) entry for `(c, n)` the resolver returns exactly that configured
name, and when the chain or the name is absent it returns `n` unchanged.
Lookups consult only the given chain's sub-table, and the configured value
is returned as-is (a single application, no bidirectional or transitive
inference), so contradictory entries on different chains each apply only
on their own chain. -/
theorem c8_resolver_chain_scoped (pmap : List (String × List (String × String)))
    (c n : String) :
    (∀ tbl m, c ≠ "" → alistGet c pmap = some tbl → alistGet n tbl = some m → m ≠ "" →
      resolveProtoName pmap (.str c) (.str n) = .str m) ∧
    (alistGet c pmap = none → resolveProtoName pmap (.str c) (.str n) = .str n) ∧
    (∀ tbl, alistGet c pmap = some tbl → alistGet n tbl = none →
      resolveProtoName pmap (.str c) (.str n) = .str n) := by
  refine ⟨?_, ?_, ?_⟩
  · intro tbl m hc h1 h2 h3
    rw [resolveProtoName, if_pos (by simp [Js.truthy, hc])]
    simp only [Js.key]
    rw [h1]
    dsimp only
    rw [h2]
    dsimp only
    rw [if_pos (by simp [Js.truthy, h3])]
  · intro h1
    by_cases hc : c = ""
    · rw [resolveProtoName, if_neg (by simp [Js.truthy, hc])]
    · rw [resolveProtoName, if_pos (by simp [Js.truthy, hc])]
      simp only [Js.key]
      rw [h1]
  · intro tbl h1 h2
    by_cases hc : c = ""
    · rw [resolveProtoName, if_neg (by simp [Js.truthy, hc])]
    · rw [resolveProtoName, if_pos (by simp [Js.truthy, hc])]
      simp only [Js.key]
      rw [h1]
      dsimp only
      rw [h2]

/-- Witness for C8 on the part_003 alias table: `Velodrome` resolves to
`Velodrome V2` on optimism but stays `Velodrome` on ethereum (chain
scoping); the reverse entry `Velodrome V2` → `Velodrome` on the same table
is applied as configured with no bidirectional inference; and the bsc-only
`Helio` alias does not fire on ethereum. -/
theorem c8_witness :
    resolveProtoName PROTOCOL_NAME_MAP_V (.str "optimism") (.str "Velodrome") =
      .str "Velodrome V2" ∧
    resolveProtoName PROTOCOL_NAME_MAP_V (.str "ethereum") (.str "Velodrome") =
      .str "Velodrome" ∧
    resolveProtoName PROTOCOL_NAME_MAP_V (.str "optimism") (.str "Velodrome V2") =
      .str "Velodrome" ∧
    resolveProtoName PROTOCOL_NAME_MAP_V (.str "binance-smart-chain") (.str "Helio") =
      .str "Lista DAO" ∧
    resolveProtoName PROTOCOL_NAME_MAP_V (.str "ethereum") (.str "Helio") = .str "Helio" := by
  refine ⟨?_, ?_, ?_, ?_, ?_⟩
  · exact (c8_resolver_chain_scoped PROTOCOL_NAME_MAP_V "optimism" "Velodrome").1
      [("Velodrome", "Velodrome V2"), ("Velodrome V2", "Velodrome")] "Velodrome V2"
      (by simp) (by with_unfolding_all rfl) (by with_unfolding_all rfl) (by simp)
  · exact (c8_resolver_chain_scoped PROTOCOL_NAME_MAP_V "ethereum" "Velodrome").2.2
      [("Morpho Blue", "Morpho"), ("Tokemak", "AUTO Finance"), ("Spool", "Yelay"),
       ("Euler v2", "Euler"), ("Compound V2", "Compound"), ("MakerDAO", "Maker"),
       ("ParaSwap", "Velora")]
      (by with_unfolding_all rfl) (by with_unfolding_all rfl)
  · exact (c8_resolver_chain_scoped PROTOCOL_NAME_MAP_V "optimism" "Velodrome V2").1
      [("Velodrome", "Velodrome V2"), ("Velodrome V2", "Velodrome")] "Velodrome"
      (by simp) (by with_unfolding_all rfl) (by with_unfolding_all rfl) (by simp)
  · exact (c8_resolver_chain_scoped PROTOCOL_NAME_MAP_V "binance-smart-chain" "Helio").1
      [("Helio", "Lista DAO")] "Lista DAO"
      (by simp) (by with_unfolding_all rfl) (by with_unfolding_all rfl) (by simp)
  · exact (c8_resolver_chain_scoped PROTOCOL_NAME_MAP_V "ethereum" "Helio").2.2
      [("Morpho Blue", "Morpho"), ("Tokemak", "AUTO Finance"), ("Spool", "Yelay"),
       ("Euler v2", "Euler"), ("Compound V2", "Compound"), ("MakerDAO", "Maker"),
       ("ParaSwap", "Velora")]
      (by with_unfolding_all rfl) (by with_unfolding_all rfl)

/-- The C3 counterexample input: a borrow token whose raw
`amount × price` product is negative (−1 × 1). -/
def c3input : Js :=
  .arr [.obj [("name", .str "X"), ("id", .str "x"),
    ("portfolio_item_list", .arr [.obj [
      ("stats", .obj [("net_usd_value", .num 0)]),
      ("detail", .obj [("borrow_token_list", .arr [.obj [
        ("symbol", .str "T"), ("amount", .num (-1)), ("price", .num 1)]])])]])]]

/-- The borrow asset produced from the C3 counterexample input: its value
is `(−1 × 1) × −1 = 1 > 0`. -/
def c3asset : Asset := Asset.mk "T" (.num (-1)) (.num 1) 1 (.str "borrow") .undefined

/-- The protocol bucket of the C3 counterexample output. -/
def c3proto : Protocol := Protocol.mk (.str "X") (.str "x") 0 [c3asset]

/-- The C3 counterexample output snapshot. -/
def c3snap : Snapshot := Snapshot.mk [("X", c3proto)] 0

/-- C3 counterexample: a borrow-token entry with a negative raw
`amount × price` product yields an asset of strictly positive value
(`(−1 × 1) × −1 = 1`), refuting `value <= 0` "regardless of the sign of the
raw product". -/
theorem c3_counterexample :
    normalizeDeBank c3input = .ok c3snap ∧
    plookup "X" c3snap.protocols = some c3proto ∧
    c3proto.assets = [c3asset] ∧ c3asset.type = .str "borrow" ∧
    c3asset.value = 1 ∧ ¬ c3asset.value ≤ 0 := by
  refine ⟨by with_unfolding_all rfl, by with_unfolding_all rfl, rfl, rfl,
    by with_unfolding_all rfl, ?_⟩
  norm_num [c3asset]

/-- C3 (amended): every borrow-token entry processed by the borrow block of
`normalizeDeBank` yields an asset whose value is exactly
`amount × price × (−1)`; that value is nonpositive whenever the raw amount
and price are both nonnegative (strictly negative when both are strictly
positive, zero when either is zero), but a negative raw product yields a
positive value. -/
theorem c3_amended (t : Js) (a : Asset) (h : procBorrowToken t = .ok a) :
    a.value = (t.jget "amount").toNum * (t.jget "price").toNum * (-1) ∧
    a.type = .str "borrow" ∧
    ∀ q p0 : ℚ, t.jget "amount" = .num q → t.jget "price" = .num p0 →
      (0 ≤ q → 0 ≤ p0 → a.value ≤ 0) ∧ (0 < q → 0 < p0 → a.value < 0) ∧
      ((q = 0 ∨ p0 = 0) → a.value = 0) := by
  rw [procBorrowToken.eq_def] at h
  cases hget : t.getE "symbol" with
  | error e => rw [hget] at h; exact absurd h (by simp)
  | ok symJs =>
    rw [hget] at h
    dsimp only at h
    cases htr : symJs.trimE with
    | error e => rw [htr] at h; exact absurd h (by simp)
    | ok symS =>
      rw [htr] at h
      dsimp only at h
      obtain rfl : a = _ := (Except.ok.inj h).symm
      refine ⟨rfl, rfl, ?_⟩
      intro q p0 hq hp
      rw [show (Asset.mk symS (t.jget "amount") (t.jget "price")
        ((t.jget "amount").toNum * (t.jget "price").toNum * (-1)) (.str "borrow")
        .undefined).value = (t.jget "amount").toNum * (t.jget "price").toNum * (-1) from rfl,
        hq, hp]
      simp only [Js.toNum]
      refine ⟨fun h1 h2 => ?_, fun h1 h2 => ?_, fun h1 => ?_⟩
      · nlinarith [mul_nonneg h1 h2]
      · nlinarith [mul_pos h1 h2]
      · rcases h1 with rfl | rfl <;> ring

/-- Witness for C3 (amended) at a concrete borrow token of amount 2 and
price 3. -/
theorem c3_amended_witness :
    (Asset.mk "D" (.num 2) (.num 3) (-6) (.str "borrow") .undefined).value =
      ((Js.obj [("symbol", .str "D"), ("amount", .num 2), ("price", .num 3)]).jget
        "amount").toNum *
      ((Js.obj [("symbol", .str "D"), ("amount", .num 2), ("price", .num 3)]).jget
        "price").toNum * (-1) ∧
    (Asset.mk "D" (.num 2) (.num 3) (-6) (.str "borrow") .undefined).value ≤ 0 := by
  have h := c3_amended (.obj [("symbol", .str "D"), ("amount", .num 2), ("price", .num 3)])
    (Asset.mk "D" (.num 2) (.num 3) (-6) (.str "borrow") .undefined)
    (by with_unfolding_all rfl)
  exact ⟨h.1, (h.2.2 2 3 (by with_unfolding_all rfl) (by with_unfolding_all rfl)).1
    (by norm_num) (by norm_num)⟩

/-- C10: a provider-A protocol record whose `name` is absent or falsy is
neither skipped nor (by itself) a failure: a well-formed such record
normalizes successfully, the record is bucketed under `"Unknown"` with the
record's `id` copied through, and its portfolio-item net values still make
up the bucket value and the snapshot's `totalValue`. -/
theorem c10_unknown_bucket :
    (∀ proto, wfProto proto = true → ∃ s, normalizeDeBank (.arr [proto]) = .ok s) ∧
    (∀ proto s, normalizeDeBank (.arr [proto]) = .ok s →
      (proto.jget "name").truthy = false →
      ∃ p, s.protocols = [("Unknown", p)] ∧ p.name = .str "Unknown" ∧
        p.id = proto.jget "id" ∧ p.value = s.totalValue ∧
        ∀ items rs, proto.jget "portfolio_item_list" = .arr items →
          procItems items = .ok rs → p.value = (rs.map Prod.fst).sum) := by
  constructor
  · intro proto hwf
    exact normalizeDeBank_total (.arr [proto]) (by simp [wfDeBank, hwf])
  · intro proto s h hname
    obtain ⟨cs, hcs, rfl⟩ := normalizeDeBank_ok_arr [proto] s h
    cases hc : protoContrib proto with
    | error e =>
      simp only [contribsOf, hc] at hcs
      exact absurd hcs (by simp)
    | ok c =>
      simp only [contribsOf, hc] at hcs
      obtain rfl : cs = [c] := (Except.ok.inj hcs).symm
      rw [protoContrib.eq_def] at hc
      cases hget : proto.getE "name" with
      | error e => rw [hget] at hc; exact absurd hc (by simp)
      | ok nameJs =>
        obtain rfl := getE_ok_eq proto "name" nameJs hget
        rw [hget] at hc
        dsimp only at hc
        rw [show jsOr (proto.jget "name") (.str "Unknown") = .str "Unknown" from
          by simp [jsOr, hname]] at hc
        cases hpil : proto.jget "portfolio_item_list" with
        | arr items0 =>
          rw [hpil] at hc
          dsimp only at hc
          cases hrs : procItems items0 with
          | error e => rw [hrs] at hc; exact absurd hc (by simp)
          | ok rs0 =>
            rw [hrs] at hc
            dsimp only at hc
            obtain rfl : c = _ := (Except.ok.inj hc).symm
            refine ⟨Protocol.mk (.str "Unknown") (proto.jget "id")
              ((rs0.map Prod.fst).sum) ((rs0.map Prod.snd).flatten), rfl, rfl, rfl, ?_, ?_⟩
            · show (rs0.map Prod.fst).sum = emptySnapshot.totalValue + (rs0.map Prod.fst).sum
              simp [emptySnapshot]
            · intro items rs hpil2 hrs2
              obtain rfl : items0 = items := by injection hpil2
              obtain rfl : rs0 = rs := by injection hrs.symm.trans hrs2
              rfl
        | null => rw [hpil] at hc; exact absurd hc (by simp)
        | undefined => rw [hpil] at hc; exact absurd hc (by simp)
        | bool b => rw [hpil] at hc; exact absurd hc (by simp)
        | num q => rw [hpil] at hc; exact absurd hc (by simp)
        | str s2 => rw [hpil] at hc; exact absurd hc (by simp)
        | obj fs => rw [hpil] at hc; exact absurd hc (by simp)

/-- The C10 witness record: `name` is null, `id` is present, one portfolio
item of net value 7. -/
def c10proto : Js :=
  .obj [("name", .null), ("id", .str "slug7"),
    ("portfolio_item_list", .arr [.obj [
      ("stats", .obj [("net_usd_value", .num 7)])]])]

/-- Witness for C10 at a concrete null-named record. -/
theorem c10_witness :
    (∃ s, normalizeDeBank (.arr [c10proto]) = .ok s) ∧
    (∃ p, (Snapshot.mk [("Unknown", Protocol.mk (.str "Unknown") (.str "slug7") 7 [])]
        7).protocols = [("Unknown", p)] ∧
      p.name = .str "Unknown" ∧ p.id = c10proto.jget "id" ∧
      p.value = (Snapshot.mk [("Unknown", Protocol.mk (.str "Unknown") (.str "slug7") 7 [])]
        7).totalValue) := by
  constructor
  · exact c10_unknown_bucket.1 c10proto (by with_unfolding_all rfl)
  · obtain ⟨p, h1, h2, h3, h4, h5⟩ := c10_unknown_bucket.2 c10proto
      (Snapshot.mk [("Unknown", Protocol.mk (.str "Unknown") (.str "slug7") 7 [])] 7)
      (by with_unfolding_all rfl) (by with_unfolding_all rfl)
    exact ⟨p, h1, h2, h3, h4⟩

/-- A provider-A protocol record with no `portfolio_item_list`. -/
def c2noPil : Js := .arr [.obj [("name", .str "X"), ("id", .str "x")]]

/-- A provider-A record whose portfolio item has no `stats`. -/
def c2noStats : Js :=
  .arr [.obj [("name", .str "X"), ("portfolio_item_list", .arr [.obj []])]]

/-- A provider-A record whose supply token has no `symbol`. -/
def c2noSymbol : Js :=
  .arr [.obj [("name", .str "X"), ("portfolio_item_list", .arr [.obj [
    ("stats", .obj []),
    ("detail", .obj [("supply_token_list", .arr [.obj []])])]])]]

/-- C2 counterexample: the normalizers are not total.  `normalizeDeBank`
throws on a protocol record lacking `portfolio_item_list`, on an item
lacking `stats`, and on a token entry lacking `symbol`; `normalizeZerion`
throws on a null payload.  Each case the claim lists as degrading
gracefully in fact raises a TypeError. -/
theorem c2_counterexample :
    normalizeDeBank c2noPil = .error "TypeError: forEach is not a function" ∧
    normalizeDeBank c2noStats =
      .error "TypeError: cannot read properties of undefined: net_usd_value" ∧
    normalizeDeBank c2noSymbol = .error "TypeError: trim is not a function" ∧
    normalizeZerion PROTOCOL_NAME_MAP .null (.str "ethereum") =
      .error "TypeError: cannot read properties of null: data" := by
  refine ⟨?_, ?_, ?_, ?_⟩ <;> with_unfolding_all rfl

/-- A fully degraded provider-B position: protocol present, everything
else absent. -/
def c2zerionDegraded : Js := .arr [.obj [("attributes", .obj [("protocol", .str "P")])]]

/-- C2 (amended): the normalizers are total on inputs satisfying the
well-formedness the code actually assumes (`wfDeBank`: every record has an
array `portfolio_item_list`, items have `stats`, token entries have string
`symbol`; `wfZerion`: non-nullish payload whose positions have
string-or-absent fungible symbols).  Within that domain missing fields
degrade gracefully rather than aborting: a position with only a protocol
yields the placeholder symbol `?`, zero amount/price/value and an untouched
`undefined` position type. -/
theorem c2_amended (chainData raw chainId : Js)
    (pmap : List (String × List (String × String))) :
    (wfDeBank chainData = true → ∃ s, normalizeDeBank chainData = .ok s) ∧
    (wfZerion raw = true → ∃ s, normalizeZerion pmap raw chainId = .ok s) ∧
    normalizeZerion PROTOCOL_NAME_MAP c2zerionDegraded (.str "ethereum") =
      .ok (Snapshot.mk [("P", Protocol.mk (.str "P") (.str "P") 0
        [Asset.mk "?" (.num 0) (.num 0) 0 .undefined .undefined])] 0) := by
  exact ⟨normalizeDeBank_total chainData, normalizeZerion_total pmap raw chainId,
    by with_unfolding_all rfl⟩

/-- Witness for C2 (amended): a record with no `name`, no `net_usd_value`
and no `detail` still normalizes, as does a position with only a
protocol. -/
theorem c2_amended_witness :
    (∃ s, normalizeDeBank (.arr [.obj [("portfolio_item_list",
      .arr [.obj [("stats", .obj [])]])]]) = .ok s) ∧
    (∃ s, normalizeZerion PROTOCOL_NAME_MAP c2zerionDegraded (.str "ethereum") = .ok s) := by
  have h := c2_amended (.arr [.obj [("portfolio_item_list", .arr [.obj [("stats", .obj [])]])]])
    c2zerionDegraded (.str "ethereum") PROTOCOL_NAME_MAP
  exact ⟨h.1 (by with_unfolding_all rfl), h.2.1 (by with_unfolding_all rfl)⟩

/-- C7: in every snapshot either normalizer produces, `totalValue` equals
the sum of all protocol values; protocol keys are unique (an existing
bucket is never overwritten); and every bucket's value is the sum of the
values of ALL contributions whose (alias-resolved) key is that bucket's
key, with its asset list their concatenation in input order — so two or
more positions or records resolving to the same protocol name are merged
into a single entry. -/
theorem c7_totalValue_and_merge :
    (∀ pmap (raw chainId : Js) (s : Snapshot),
      normalizeZerion pmap raw chainId = .ok s →
      s.totalValue = protoSum s ∧ (pkeys s.protocols).Nodup ∧
      ∀ items cs, zerionItems raw = .ok items → entriesOf pmap chainId items = .ok cs →
        ∀ k p, plookup k s.protocols = some p →
          cs.filter (fun c => c.key = k) ≠ [] ∧
          p.value = ((cs.filter (fun c => c.key = k)).map Contribution.val).sum ∧
          p.assets = ((cs.filter (fun c => c.key = k)).map Contribution.assets).flatten) ∧
    (∀ (chainData : Js) (s : Snapshot), normalizeDeBank chainData = .ok s →
      s.totalValue = protoSum s ∧ (pkeys s.protocols).Nodup ∧
      ∀ protos cs, chainData = .arr protos → contribsOf protos = .ok cs →
        ∀ k p, plookup k s.protocols = some p →
          cs.filter (fun c => c.key = k) ≠ [] ∧
          p.value = ((cs.filter (fun c => c.key = k)).map Contribution.val).sum ∧
          p.assets = ((cs.filter (fun c => c.key = k)).map Contribution.assets).flatten) := by
  constructor
  · intro pmap raw chainId s h
    obtain ⟨h1, h2, h3⟩ := normalizeZerion_spec pmap raw chainId s h
    refine ⟨h1, h2, ?_⟩
    intro items cs hitems hcs k p hp
    obtain ⟨c0, rest, hfil, _, _, hval, hassets⟩ := h3 items cs hitems hcs k p hp
    exact ⟨by rw [hfil]; simp, hval, hassets⟩
  · intro chainData s h
    obtain ⟨h1, h2, h3⟩ := normalizeDeBank_spec chainData s h
    refine ⟨h1, h2, ?_⟩
    intro protos cs heq hcs k p hp
    obtain ⟨c0, rest, hfil, _, _, hval, hassets⟩ := h3 protos cs heq hcs k p hp
    exact ⟨by rw [hfil]; simp, hval, hassets⟩

/-- First C7 witness position: protocol `Morpho Blue`, alias-resolved to
`Morpho` on ethereum. -/
def c7pos1 : Js :=
  .obj [("attributes", .obj
    [("protocol", .str "Morpho Blue"), ("value", .num 10),
     ("position_type", .str "deposit"),
     ("fungible_info", .obj [("symbol", .str "A")]),
     ("quantity", .obj [("float", .num 1)]), ("price", .num 10)])]

/-- Second C7 witness position: protocol `Morpho` verbatim — the same
resolved bucket as the first. -/
def c7pos2 : Js :=
  .obj [("attributes", .obj
    [("protocol", .str "Morpho"), ("value", .num 20),
     ("position_type", .str "deposit"),
     ("fungible_info", .obj [("symbol", .str "B")]),
     ("quantity", .obj [("float", .num 2)]), ("price", .num 10)])]

/-- The C7 witness asset from the first position. -/
def c7a1 : Asset := Asset.mk "A" (.num 1) (.num 10) 10 (.str "deposit") .undefined

/-- The C7 witness asset from the second position. -/
def c7a2 : Asset := Asset.mk "B" (.num 2) (.num 10) 20 (.str "deposit") .undefined

/-- The merged C7 witness bucket: both positions in one entry, values
summed, assets concatenated. -/
def c7p : Protocol := Protocol.mk (.str "Morpho") (.str "Morpho") 30 [c7a1, c7a2]

/-- The C7 witness snapshot. -/
def c7snap : Snapshot := Snapshot.mk [("Morpho", c7p)] 30

/-- The C7 witness contribution list. -/
def c7cs : List Contribution :=
  [Contribution.mk "Morpho" (.str "Morpho") (.str "Morpho") 10 [c7a1],
   Contribution.mk "Morpho" (.str "Morpho") (.str "Morpho") 20 [c7a2]]

/-- Witness for C7: two ethereum positions alias-resolving to `Morpho` are
merged into one bucket of value 30 with both assets, and the snapshot
invariants hold. -/
theorem c7_witness :
    normalizeZerion PROTOCOL_NAME_MAP (.arr [c7pos1, c7pos2]) (.str "ethereum") =
      .ok c7snap ∧
    c7snap.totalValue = protoSum c7snap ∧ (pkeys c7snap.protocols).Nodup ∧
    c7p.value = ((c7cs.filter (fun c => c.key = "Morpho")).map Contribution.val).sum ∧
    c7p.assets = ((c7cs.filter (fun c => c.key = "Morpho")).map Contribution.assets).flatten := by
  have hok : normalizeZerion PROTOCOL_NAME_MAP (.arr [c7pos1, c7pos2]) (.str "ethereum") =
      .ok c7snap := by with_unfolding_all rfl
  obtain ⟨h1, h2, h3⟩ := c7_totalValue_and_merge.1 PROTOCOL_NAME_MAP
    (.arr [c7pos1, c7pos2]) (.str "ethereum") c7snap hok
  obtain ⟨_, hval, hassets⟩ := h3 [c7pos1, c7pos2] c7cs (by with_unfolding_all rfl)
    (by with_unfolding_all rfl) "Morpho" c7p (by with_unfolding_all rfl)
  exact ⟨hok, h1, h2, hval, hassets⟩

theorem normalizeZerion_emptyArr (pmap : List (String × List (String × String)))
    (chainId : Js) : normalizeZerion pmap (.arr []) chainId = .ok emptySnapshot := rfl

theorem chainLoop_mem (fs : FS) (addr : String) :
    ∀ (pairs : List (String × String)) (dId zId : String) (r : ComparisonRecord)
      (l : List (String × ComparisonRecord)), (dId, zId) ∈ pairs →
      processChainPair fs addr dId zId = some (.ok r) →
      chainLoop fs addr pairs = .ok l → (zId, r) ∈ l := by
  intro pairs
  induction pairs with
  | nil => intro dId zId r l hmem; simp at hmem
  | cons pr rest ih =>
    obtain ⟨d2, z2⟩ := pr
    intro dId zId r l hmem hpc hl
    rw [chainLoop] at hl
    rcases List.mem_cons.mp hmem with heq | hmem2
    · obtain ⟨rfl, rfl⟩ : dId = d2 ∧ zId = z2 := by simpa using heq
      rw [hpc] at hl
      cases hrest : chainLoop fs addr rest with
      | error e => rw [hrest] at hl; exact absurd hl (by simp)
      | ok others =>
        rw [hrest] at hl
        obtain rfl : (zId, r) :: others = l := Except.ok.inj hl
        exact List.mem_cons_self _ _
    · cases hpc2 : processChainPair fs addr d2 z2 with
      | none =>
        rw [hpc2] at hl
        exact ih dId zId r l hmem2 hpc hl
      | some res =>
        cases res with
        | error e => rw [hpc2] at hl; exact absurd hl (by simp)
        | ok rec2 =>
          rw [hpc2] at hl
          cases hrest : chainLoop fs addr rest with
          | error e => rw [hrest] at hl; exact absurd hl (by simp)
          | ok others =>
            rw [hrest] at hl
            obtain rfl : (z2, rec2) :: others = l := Except.ok.inj hl
            exact List.mem_cons_of_mem _ (ih dId zId r others hmem2 hpc hrest)

theorem addrLoop_mem (fs : FS) :
    ∀ (addrs : List String) (addr : String)
      (out : List (String × List (String × ComparisonRecord))),
      addr ∈ addrs → addrLoop fs addrs = .ok out →
      ∃ l, processAddress fs addr = .ok l ∧ (addr, l) ∈ out := by
  intro addrs
  induction addrs with
  | nil => intro addr out hmem; simp at hmem
  | cons a rest ih =>
    intro addr out hmem hout
    rw [addrLoop] at hout
    cases hpa : processAddress fs a with
    | error e => rw [hpa] at hout; exact absurd hout (by simp)
    | ok l0 =>
      rw [hpa] at hout
      cases hrest : addrLoop fs rest with
      | error e => rw [hrest] at hout; exact absurd hout (by simp)
      | ok others =>
        rw [hrest] at hout
        obtain rfl : (a, l0) :: others = out := Except.ok.inj hout
        rcases List.mem_cons.mp hmem with rfl | hmem2
        · exact ⟨l0, hpa, List.mem_cons_self _ _⟩
        · obtain ⟨l, hl1, hl2⟩ := ih addr others hmem2 hrest
          exact ⟨l, hl1, List.mem_cons_of_mem _ hl2⟩

/-- C4 (amended): for each address the assembler enumerates (the
directories of the provider-A data dir) and each mapped chain where
exactly one provider's raw file exists, a ComparisonRecord is still built:
the present provider's snapshot is its normalized file and the absent
provider's snapshot is the empty snapshot; the record appears in the
address's chain list, and every enumerated address appears in the output.
An address is enumerated only from the provider-A side, so one entirely
lacking the provider-B directory is still processed — but one lacking the
provider-A directory is never emitted (see the counterexample). -/
theorem c4_amended :
    (∀ (fs : FS) (addr dId zId : String) (d : Js) (s : Snapshot),
      fs.debankFile addr dId = some d → fs.zerionFile addr zId = none →
      normalizeDeBank d = .ok s →
      processChainPair fs addr dId zId = some (.ok (ComparisonRecord.mk s emptySnapshot))) ∧
    (∀ (fs : FS) (addr dId zId : String) (z : Js) (s : Snapshot),
      fs.debankFile addr dId = none → fs.zerionFile addr zId = some z →
      normalizeZerion PROTOCOL_NAME_MAP (jsOr z (.arr [])) (.str zId) = .ok s →
      processChainPair fs addr dId zId = some (.ok (ComparisonRecord.mk emptySnapshot s))) ∧
    (∀ (fs : FS) (addr dId zId : String) (r : ComparisonRecord)
      (l : List (String × ComparisonRecord)), (dId, zId) ∈ CHAIN_MAP →
      processChainPair fs addr dId zId = some (.ok r) →
      processAddress fs addr = .ok l → (zId, r) ∈ l) ∧
    (∀ (fs : FS) (addr : String) (out : List (String × List (String × ComparisonRecord))),
      addr ∈ fs.debankDirs → mainResult fs = .ok out →
      ∃ l, processAddress fs addr = .ok l ∧ (addr, l) ∈ out) := by
  refine ⟨?_, ?_, ?_, ?_⟩
  · intro fs addr dId zId d s h1 h2 h3
    simp only [processChainPair, h1, h2]
    simp only [Option.isNone_some, Option.isNone_none, Bool.false_and, Bool.and_false,
      if_false, Option.getD]
    rw [h3]
    dsimp only
    rw [show jsOr Js.null (.arr []) = .arr [] from rfl, normalizeZerion_emptyArr]
    simp
  · intro fs addr dId zId z s h1 h2 h3
    simp only [processChainPair, h1, h2]
    simp only [Option.isNone_some, Option.isNone_none, Bool.and_false, Bool.false_and,
      if_false, Option.getD]
    rw [show normalizeDeBank Js.null = .ok emptySnapshot from rfl]
    dsimp only
    rw [h3]
    simp
  · intro fs addr dId zId r l hmem hpc hl
    exact chainLoop_mem fs addr CHAIN_MAP dId zId r l hmem hpc hl
  · intro fs addr out hmem hout
    exact addrLoop_mem fs fs.debankDirs addr out hmem hout

/-- A raw-input surface where the address `walletA` has provider-B data on
ethereum but no provider-A directory at all. -/
def c4fs : FS :=
  FS.mk []
    (fun _ _ => none)
    (fun a c => if a = "walletA" ∧ c = "ethereum" then some (.arr []) else none)

/-- C4 counterexample: addresses are enumerated from the provider-A data
directory only, so an address whose raw input has a provider-B resource but
no provider-A directory is skipped entirely — the output is empty instead
of containing a ComparisonRecord for (walletA, ethereum). -/
theorem c4_counterexample :
    c4fs.zerionFile "walletA" "ethereum" = some (.arr []) ∧
    (∃ s, normalizeZerion PROTOCOL_NAME_MAP (.arr []) (.str "ethereum") = .ok s) ∧
    mainResult c4fs = .ok [] := by
  refine ⟨by with_unfolding_all rfl, ⟨emptySnapshot, rfl⟩, rfl⟩

/-- A raw-input surface with one enumerated address `walletB`: a
provider-A file only on `eth` and a provider-B file only on `optimism`. -/
def c4fs2 : FS :=
  FS.mk ["walletB"]
    (fun a c => if a = "walletB" ∧ c = "eth" then some (.arr []) else none)
    (fun a c => if a = "walletB" ∧ c = "optimism" then some (.arr []) else none)

/-- The record emitted for a chain with a single present provider whose
payload is empty. -/
def c4rec : ComparisonRecord := ComparisonRecord.mk emptySnapshot emptySnapshot

/-- The chain list emitted for `walletB`. -/
def c4list : List (String × ComparisonRecord) := [("ethereum", c4rec), ("optimism", c4rec)]

/-- Witness for C4 (amended) at the concrete surface `c4fs2`. -/
theorem c4_amended_witness :
    processChainPair c4fs2 "walletB" "eth" "ethereum" = some (.ok c4rec) ∧
    processChainPair c4fs2 "walletB" "op" "optimism" = some (.ok c4rec) ∧
    ("ethereum", c4rec) ∈ c4list ∧
    (∃ l, processAddress c4fs2 "walletB" = .ok l ∧
      ("walletB", l) ∈ [("walletB", c4list)]) := by
  have h1 := c4_amended.1 c4fs2 "walletB" "eth" "ethereum" (.arr []) emptySnapshot
    (by with_unfolding_all rfl) (by with_unfolding_all rfl) rfl
  have h2 := c4_amended.2.1 c4fs2 "walletB" "op" "optimism" (.arr []) emptySnapshot
    (by with_unfolding_all rfl) (by with_unfolding_all rfl) (by with_unfolding_all rfl)
  have h3 := c4_amended.2.2.1 c4fs2 "walletB" "eth" "ethereum" c4rec c4list
    (by simp [CHAIN_MAP]) h1 (by with_unfolding_all rfl)
  have h4 := c4_amended.2.2.2 c4fs2 "walletB" [("walletB", c4list)]
    (by simp [c4fs2]) (by with_unfolding_all rfl)
  exact ⟨h1, h2, h3, h4⟩
